import Mathlib

/-!
# Upload tracking in the expense submission wizard

A shallow embedding of `static/src/js/expense_upload_tracker.js`:

* the `FormController.include` patch (`init`, `_updateUploadStatus`,
  `_onUploadStart`, `_onUploadComplete`, `renderButtons`,
  `_updateButtonStates`, `update`);
* the `FieldMany2ManyBinaryUploadTracked` field (`init`, `_uploadFiles`,
  `_notifyUploadStart`, `_notifyUploadComplete`).

JavaScript objects become structures, `undefined`/`null` become `none`, a
method is a function from the state before the call to a `Run`: the state it
leaves together with whether it returned or raised.  Calls into the host
framework (`notifyChanges`, `_super`, `_t`) are either recorded in a log or
taken as parameters.  `_uploadCounter` is an integer-valued JavaScript number;
it is modelled by `Int`, which is exact for every value below `2 ^ 53`.
-/

namespace ExpenseUploadTracker

/-! ## Data model -/

/-- Exceptions of the JavaScript code: a `TypeError` from reading a property of
`undefined`, or a value rethrown by a `throw` statement. -/
inductive JsError where
  | typeError (what : String)
  | thrown (what : String)
  deriving Repr, DecidableEq

/-- Outcome of running a method on a state of type `σ`: it returned normally
leaving state `s`, or it raised `e` leaving state `s`. -/
inductive Run (σ : Type) where
  | done (s : σ)
  | raised (e : JsError) (s : σ)
  deriving Repr, DecidableEq

/-- Sequencing of statements: the rest runs only when the first part returned. -/
def Run.andThen {σ : Type} (r : Run σ) (rest : σ → Run σ) : Run σ :=
  match r with
  | .done s => rest s
  | .raised e s => .raised e s

/-- State left behind, whether the method returned or raised. -/
def Run.state {σ : Type} : Run σ → σ
  | .done s => s
  | .raised _ s => s

/-- Loop `for (var i = 0; i < n; i++) body()`: an exception in the body leaves the
loop. -/
def repeatRun {σ : Type} (body : σ → Run σ) : Nat → σ → Run σ
  | 0, s => .done s
  | n + 1, s => (body s).andThen (repeatRun body n)

/-- Local identifier of a record inside the model (`this.handle`). -/
abbrev Handle := String

/-- The `data` object of a record; `is_uploading` may be missing. -/
structure RecordData where
  is_uploading : Option Bool
  deriving Repr, DecidableEq

/-- An entry of `model.localData`. -/
structure Record where
  data : Option RecordData
  deriving Repr, DecidableEq

/-- One execution of `this.model.notifyChanges(handle, {is_uploading: b})`
(line 27). -/
structure NotifyCall where
  handle : Handle
  is_uploading : Bool
  deriving Repr, DecidableEq

/-- The form model as far as the tracker touches it: `localData` (which may be
absent), the log of `notifyChanges` calls made by `_updateUploadStatus`, and the
number of continuations registered on the promises those calls returned (each
one issues the empty `notifyChanges(handle, {}, {viewType: 'form'})` of line 31
once its promise is fulfilled). -/
structure BasicModel where
  localData : Option (List (Handle × Record))
  notifyLog : List NotifyCall
  recomputeQueued : Nat
  deriving Repr, DecidableEq

/-- A button below `$buttons`: whether it carries the class `btn-primary`, its
text, and its `disabled` property. -/
structure Button where
  primary : Bool
  text : String
  disabled : Bool
  deriving Repr, DecidableEq

/-- A form controller: the framework members the patch reads (`modelName`,
`model`, `handle`, `$buttons`) and the two members the patch adds. -/
structure Controller where
  modelName : String
  model : Option BasicModel
  handle : Handle
  buttons : Option (List Button)
  _isExpenseWizard : Bool
  _uploadCounter : Int
  deriving Repr, DecidableEq

/-- The model name the feature is switched on for. -/
def wizardModel : String := "business.trip.expense.submission.wizard"

/-! ## The `FormController.include` patch -/

/-- Method `init` (lines 13-17): the base `init` stores `modelName`, `model` and
`handle`; buttons are not rendered yet. -/
def FormController.init (modelName : String) (model : Option BasicModel)
    (handle : Handle) : Controller :=
  { modelName := modelName
    model := model
    handle := handle
    buttons := none
    _isExpenseWizard := modelName == wizardModel
    _uploadCounter := 0 }

/-- Effect of lines 27-34 on the model: the call is logged and a continuation is
registered on its promise. -/
def BasicModel.notifyChanges (m : BasicModel) (h : Handle) (isUploading : Bool) :
    BasicModel :=
  { m with
    notifyLog := m.notifyLog ++ [{ handle := h, is_uploading := isUploading }]
    recomputeQueued := m.recomputeQueued + 1 }

/-- Method `_updateUploadStatus` (lines 22-37). -/
def Controller._updateUploadStatus (c : Controller) (isUploading : Bool) :
    Run Controller :=
  if c._isExpenseWizard && c.model.isSome
      && (c.model.bind fun m => m.localData).isSome then
    match c.model with
    | none => .raised (.typeError "this.model is undefined") c
    | some m =>
      match m.localData with
      | none => .raised (.typeError "this.model.localData is undefined") c
      | some localData =>
        let record := localData.lookup c.handle
        if record.isSome then
          .done { c with model := some (m.notifyChanges c.handle isUploading) }
        else
          .done c
  else
    .done c

/-- Method `_onUploadStart` (lines 42-48). -/
def Controller._onUploadStart (c : Controller) : Run Controller :=
  if c._isExpenseWizard then
    Controller._updateUploadStatus
      { c with _uploadCounter := c._uploadCounter + 1 } true
  else
    .done c

/-- Method `_onUploadComplete` (lines 53-61). -/
def Controller._onUploadComplete (c : Controller) : Run Controller :=
  if c._isExpenseWizard then
    let c1 := { c with _uploadCounter := max 0 (c._uploadCounter - 1) }
    if c1._uploadCounter == 0 then
      c1._updateUploadStatus false
    else
      .done c1
  else
    .done c

/-- Call `$submitBtn.text(s)` for `$submitBtn = $buttons.find('.btn-primary')`: the
text of every matched button is replaced. -/
def setPrimaryText (bs : List Button) (s : String) : List Button :=
  bs.map fun b => if b.primary then { b with text := s } else b

/-- Method `_updateButtonStates` (lines 77-93); `_t` is the translation function of
`web.core`. -/
def Controller._updateButtonStates (_t : String → String) (c : Controller) :
    Run Controller :=
  match c.buttons with
  | some bs =>
    if c._isExpenseWizard then
      match c.model with
      | none => .raised (.typeError "this.model is undefined") c
      | some m =>
        match m.localData with
        | none => .raised (.typeError "this.model.localData is undefined") c
        | some localData =>
          let record := localData.lookup c.handle
          match record.bind fun r => r.data with
          | some data =>
            if data.is_uploading == some true then
              .done { c with buttons := some (setPrimaryText bs (_t "Uploading...")) }
            else
              .done { c with buttons := some (setPrimaryText bs (_t "Submit Expenses")) }
          | none => .done c
    else
      .done c
  | none => .done c

/-- Method `renderButtons` (lines 66-72); `sup` is the overridden base method. -/
def Controller.renderButtons (_t : String → String)
    (sup : Controller → Run Controller) (c : Controller) : Run Controller :=
  (sup c).andThen fun c1 =>
    if c1._isExpenseWizard then c1._updateButtonStates _t else .done c1

/-- Method `update` (lines 98-104); `sup` is the overridden base method. -/
def Controller.update (_t : String → String)
    (sup : Controller → Run Controller) (c : Controller) : Run Controller :=
  (sup c).andThen fun c1 =>
    if c1._isExpenseWizard then c1._updateButtonStates _t else .done c1

/-! ## Sequences of hook calls on a controller -/

/-- A hook call received by a form controller. -/
inductive Call where
  | uploadStart
  | uploadComplete
  deriving Repr, DecidableEq

/-- Dispatch of one hook call. -/
def Controller.call (c : Controller) : Call → Run Controller
  | .uploadStart => c._onUploadStart
  | .uploadComplete => c._onUploadComplete

/-- The calls of a sequence, one after the other. -/
def runCalls : List Call → Controller → Run Controller
  | [], c => .done c
  | x :: rest, c => (c.call x).andThen (runCalls rest)

/-- The `is_uploading` value last written to the record through
`notifyChanges`; `false`, the value of the field on a new wizard, while nothing
has been written. -/
def Controller.published (c : Controller) : Bool :=
  match c.model with
  | some m =>
    match m.notifyLog.getLast? with
    | some call => call.is_uploading
    | none => false
  | none => false

/-- Whether the record of the form is there: `model`, `model.localData` and
`localData[handle]` are all present. -/
def recordExists (model : Option BasicModel) (handle : Handle) : Bool :=
  match model with
  | some m =>
    match m.localData with
    | some localData => (localData.lookup handle).isSome
    | none => false
  | none => false

/-! ## The `FieldMany2ManyBinaryUploadTracked` field -/

/-- A component above the upload field.  Every form controller carries both
hooks, since the patch goes into the `FormController` class itself; any other
component is described by which of the two members it has; the body of such a
foreign hook is not part of this code, so only its invocation is recorded and
it is taken to return normally. -/
inductive Component where
  | widget (hasStart hasComplete : Bool)
  | formController (c : Controller)
  deriving Repr, DecidableEq

/-- Truthiness of `controller._onUploadStart`. -/
def Component.hasOnUploadStart : Component → Bool
  | .widget hasStart _ => hasStart
  | .formController _ => true

/-- Truthiness of `controller._onUploadComplete`. -/
def Component.hasOnUploadComplete : Component → Bool
  | .widget _ hasComplete => hasComplete
  | .formController _ => true

/-- The call `controller._onUploadStart()`. -/
def Component.callOnUploadStart : Component → Run Component
  | .widget hasStart hasComplete => .done (.widget hasStart hasComplete)
  | .formController c =>
    match c._onUploadStart with
    | .done c1 => .done (.formController c1)
    | .raised e c1 => .raised e (.formController c1)

/-- The call `controller._onUploadComplete()`. -/
def Component.callOnUploadComplete : Component → Run Component
  | .widget hasStart hasComplete => .done (.widget hasStart hasComplete)
  | .formController c =>
    match c._onUploadComplete with
    | .done c1 => .done (.formController c1)
    | .raised e c1 => .raised e (.formController c1)

/-- What happened, in order: calls of the two notification methods of the field,
and hook invocations together with the depth of the ancestor they were made on
(`0` is the parent of the field). -/
inductive Event where
  | notifyUploadStart
  | notifyUploadComplete
  | onUploadStart (depth : Nat)
  | onUploadComplete (depth : Nat)
  deriving Repr, DecidableEq

/-- The surroundings of the field: the chain `getParent()`,
`getParent().getParent()`, ... up to the root, and the events so far. -/
structure FieldEnv where
  parents : List Component
  trace : List Event
  deriving Repr, DecidableEq

/-- The upload field: the `model` member set by the base `init`, and the flag
added by `init` (lines 112-115). -/
structure Field where
  model : String
  _isExpenseWizard : Bool
  deriving Repr, DecidableEq

/-- Method `init` of the field (lines 112-115). -/
def FieldMany2ManyBinaryUploadTracked.init (model : String) : Field :=
  { model := model, _isExpenseWizard := model == wizardModel }

/-- Method `_notifyUploadStart` (lines 153-161).  The `while` loop drops the ancestors
without the hook; `controller` is then the head of what is left, or `null`. -/
def FieldEnv._notifyUploadStart (env : FieldEnv) : Run FieldEnv :=
  let entered := { env with trace := env.trace ++ [Event.notifyUploadStart] }
  let skipped := env.parents.takeWhile fun p => !p.hasOnUploadStart
  match env.parents.dropWhile fun p => !p.hasOnUploadStart with
  | [] => .done entered
  | controller :: above =>
    if controller.hasOnUploadStart then
      let called :=
        { entered with trace := entered.trace ++ [Event.onUploadStart skipped.length] }
      match controller.callOnUploadStart with
      | .done controller1 =>
        .done { called with parents := skipped ++ controller1 :: above }
      | .raised e controller1 =>
        .raised e { called with parents := skipped ++ controller1 :: above }
    else
      .done entered

/-- Method `_notifyUploadComplete` (lines 166-174). -/
def FieldEnv._notifyUploadComplete (env : FieldEnv) : Run FieldEnv :=
  let entered := { env with trace := env.trace ++ [Event.notifyUploadComplete] }
  let skipped := env.parents.takeWhile fun p => !p.hasOnUploadComplete
  match env.parents.dropWhile fun p => !p.hasOnUploadComplete with
  | [] => .done entered
  | controller :: above =>
    if controller.hasOnUploadComplete then
      let called :=
        { entered with trace := entered.trace ++ [Event.onUploadComplete skipped.length] }
      match controller.callOnUploadComplete with
      | .done controller1 =>
        .done { called with parents := skipped ++ controller1 :: above }
      | .raised e controller1 =>
        .raised e { called with parents := skipped ++ controller1 :: above }
    else
      .done entered

/-- A file handed to the field, by name. -/
abbrev File := String

/-- How a promise ends up. -/
inductive Settlement where
  | pending
  | fulfilled
  | rejected
  deriving Repr, DecidableEq

/-- What the base `_uploadFiles` returned: `null`/`undefined`, an object without
a `then` member, or a promise. -/
inductive BaseResult where
  | nullish
  | plainObject
  | promise (s : Settlement)
  deriving Repr, DecidableEq

/-- Truthiness of `result`. -/
def BaseResult.truthy : BaseResult → Bool
  | .nullish => false
  | _ => true

/-- Truthiness of `result.then`. -/
def BaseResult.hasThen : BaseResult → Bool
  | .promise _ => true
  | _ => false

/-- State and outcome of the synchronous part of `_uploadFiles`: the
surroundings when it returns or raises, the value returned (or the exception),
and whether the `then`/`catch` callbacks of lines 132-144 were attached. -/
structure UploadCall where
  env : FieldEnv
  completion : Except JsError BaseResult
  chained : Bool
  deriving Repr

/-- Method `_uploadFiles` (lines 120-148), up to its `return`.  `base` is the outcome
of `this._super.apply(this, arguments)`; the list of files is not changed while
the upload runs. -/
def Field._uploadFiles (f : Field) (files : List File)
    (base : Except JsError BaseResult) (env : FieldEnv) : UploadCall :=
  let started :=
    if f._isExpenseWizard then
      repeatRun FieldEnv._notifyUploadStart files.length env
    else
      .done env
  match started with
  | .raised e env1 => { env := env1, completion := .error e, chained := false }
  | .done env1 =>
    match base with
    | .error e => { env := env1, completion := .error e, chained := false }
    | .ok result =>
      if f._isExpenseWizard && result.truthy && result.hasThen then
        { env := env1, completion := .ok result, chained := true }
      else
        { env := env1, completion := .ok result, chained := false }

/-- The callback given to `then` (lines 132-137); it ends with `return res`. -/
def Field.onFulfilled (_f : Field) (files : List File) (env : FieldEnv) :
    Run FieldEnv :=
  repeatRun FieldEnv._notifyUploadComplete files.length env

/-- The callback given to `catch` (lines 138-144); it ends with `throw err`. -/
def Field.onRejected (_f : Field) (files : List File) (env : FieldEnv) :
    Run FieldEnv :=
  match repeatRun FieldEnv._notifyUploadComplete files.length env with
  | .done env1 => .raised (.thrown "err") env1
  | .raised e env1 => .raised e env1

/-- The chain `result.then(onFulfilled).catch(onRejected)` once `result` has
settled as `s`: a fulfilled `result` runs the first callback, and the second one
too if the first raised; a rejected `result` runs the second callback only; a
pending one runs neither.  Exceptions of the callbacks reject the chained
promise and reach no caller. -/
def Field.runCallbacks (f : Field) (files : List File) (s : Settlement)
    (env : FieldEnv) : FieldEnv :=
  match s with
  | .pending => env
  | .fulfilled =>
    match f.onFulfilled files env with
    | .done env1 => env1
    | .raised _ env1 => (f.onRejected files env1).state
  | .rejected => (f.onRejected files env).state

/-- The surroundings once the upload started by `call` is over: the attached
callbacks, if any, have run according to how the promise settled. -/
def Field.settle (f : Field) (files : List File) (call : UploadCall) : FieldEnv :=
  match call.chained, call.completion with
  | true, .ok (.promise s) => f.runCallbacks files s call.env
  | _, _ => call.env

/-! ## Closed forms of the controller methods -/

theorem recordExists_notifyChanges (m : BasicModel) (h h1 : Handle) (b : Bool) :
    recordExists (some (m.notifyChanges h1 b)) h = recordExists (some m) h := by
  simp [recordExists, BasicModel.notifyChanges]

theorem updateUploadStatus_eq (c : Controller) (b : Bool) :
    c._updateUploadStatus b =
      .done (if c._isExpenseWizard && recordExists c.model c.handle then
        { c with model := c.model.map fun m => m.notifyChanges c.handle b }
      else c) := by
  unfold Controller._updateUploadStatus recordExists
  cases hm : c.model with
  | none => simp
  | some m =>
    cases hl : m.localData with
    | none => simp [Option.bind, hl]
    | some ld =>
      cases hr : ld.lookup c.handle <;> cases hw : c._isExpenseWizard <;>
        simp [Option.bind, hl, hr]

theorem onUploadStart_eq (c : Controller) :
    c._onUploadStart =
      .done (if c._isExpenseWizard then
        (if recordExists c.model c.handle then
          { c with
            _uploadCounter := c._uploadCounter + 1
            model := c.model.map fun m => m.notifyChanges c.handle true }
        else { c with _uploadCounter := c._uploadCounter + 1 })
      else c) := by
  unfold Controller._onUploadStart
  cases hw : c._isExpenseWizard <;> simp [updateUploadStatus_eq, hw]

theorem onUploadComplete_eq (c : Controller) :
    c._onUploadComplete =
      .done (if c._isExpenseWizard then
        (if max 0 (c._uploadCounter - 1) = 0 ∧ recordExists c.model c.handle then
          { c with
            _uploadCounter := max 0 (c._uploadCounter - 1)
            model := c.model.map fun m => m.notifyChanges c.handle false }
        else { c with _uploadCounter := max 0 (c._uploadCounter - 1) })
      else c) := by
  unfold Controller._onUploadComplete
  cases hw : c._isExpenseWizard
  · simp
  · by_cases h0 : max 0 (c._uploadCounter - 1) = 0
    · simp [updateUploadStatus_eq, hw, h0]
    · simp [hw, h0]

/-! ## Invariants of a tracking controller -/

theorem published_map_notifyChanges (model : Option BasicModel) (mn : String)
    (h : Handle) (bs : Option (List Button)) (w : Bool) (k : Int) (b : Bool)
    (hrec : recordExists model h = true) :
    Controller.published
      { modelName := mn, model := model.map fun m => m.notifyChanges h b, handle := h,
        buttons := bs, _isExpenseWizard := w, _uploadCounter := k } = b := by
  cases model with
  | none => simp [recordExists] at hrec
  | some m => simp [Controller.published, BasicModel.notifyChanges]

theorem recordExists_map_notifyChanges (model : Option BasicModel) (h h1 : Handle)
    (b : Bool) :
    recordExists (model.map fun m => m.notifyChanges h1 b) h = recordExists model h := by
  cases model with
  | none => rfl
  | some m => exact recordExists_notifyChanges m h h1 b

/-- One hook call on a wizard controller keeps the tracking invariant and moves
the counter by the expected amount. -/
theorem call_tracking (c : Controller) (x : Call)
    (hw : c._isExpenseWizard = true) (h0 : 0 ≤ c._uploadCounter)
    (hp : c.published = (recordExists c.model c.handle && decide (0 < c._uploadCounter))) :
    ∃ c1, c.call x = .done c1 ∧ c1._isExpenseWizard = true ∧ 0 ≤ c1._uploadCounter ∧
      c1.published = (recordExists c1.model c1.handle && decide (0 < c1._uploadCounter)) ∧
      recordExists c1.model c1.handle = recordExists c.model c.handle ∧
      c1._uploadCounter =
        (match x with
          | .uploadStart => c._uploadCounter + 1
          | .uploadComplete => max 0 (c._uploadCounter - 1)) := by
  obtain ⟨mn, model, h, bs, w, k⟩ := c
  simp only at hw h0 hp
  subst hw
  cases x with
  | uploadStart =>
    refine ⟨_, onUploadStart_eq _, ?_⟩
    cases hr : recordExists model h
    · simp [hr, Controller.published] at hp ⊢
      refine ⟨by omega, ?_⟩
      simpa [Controller.published] using hp
    · have hk : 0 < k + 1 := by omega
      simp [hr, published_map_notifyChanges, recordExists_map_notifyChanges, hk]
      omega
  | uploadComplete =>
    refine ⟨_, onUploadComplete_eq _, ?_⟩
    cases hr : recordExists model h
    · simp [hr] at hp ⊢
      simpa [Controller.published] using hp
    · by_cases hz : max 0 (k - 1) = 0
      · simp [hr, hz, published_map_notifyChanges, recordExists_map_notifyChanges]
      · have hk : 0 < k := by omega
        have hk1 : 0 < max 0 (k - 1) := by omega
        simp [hr, hk] at hp
        simp [hr, hz, hk1]
        simpa [Controller.published] using hp

/-- A sequence of hook calls on a wizard controller returns, and keeps the
tracking invariant. -/
theorem runCalls_tracking (calls : List Call) (c : Controller)
    (hw : c._isExpenseWizard = true) (h0 : 0 ≤ c._uploadCounter)
    (hp : c.published = (recordExists c.model c.handle && decide (0 < c._uploadCounter))) :
    ∃ c1, runCalls calls c = .done c1 ∧ c1._isExpenseWizard = true ∧
      0 ≤ c1._uploadCounter ∧
      c1.published = (recordExists c1.model c1.handle && decide (0 < c1._uploadCounter)) ∧
      recordExists c1.model c1.handle = recordExists c.model c.handle := by
  induction calls generalizing c with
  | nil => exact ⟨c, rfl, hw, h0, hp, rfl⟩
  | cons x rest ih =>
    obtain ⟨c1, hc, hw1, h01, hp1, hr1, _⟩ := call_tracking c x hw h0 hp
    obtain ⟨c2, hc2, hw2, h02, hp2, hr2⟩ := ih c1 hw1 h01 hp1
    exact ⟨c2, by simp [runCalls, hc, Run.andThen, hc2], hw2, h02, hp2, hr2.trans hr1⟩

/-- One hook call returns and keeps the counter non-negative. -/
theorem call_nonneg (c : Controller) (x : Call) (h0 : 0 ≤ c._uploadCounter) :
    ∃ c1, c.call x = .done c1 ∧ 0 ≤ c1._uploadCounter ∧
      c1._isExpenseWizard = c._isExpenseWizard := by
  cases x with
  | uploadStart =>
    refine ⟨_, onUploadStart_eq c, ?_⟩
    split_ifs <;> simp_all <;> omega
  | uploadComplete =>
    refine ⟨_, onUploadComplete_eq c, ?_⟩
    split_ifs <;> simp_all

theorem runCalls_nonneg (calls : List Call) (c : Controller)
    (h0 : 0 ≤ c._uploadCounter) :
    ∃ c1, runCalls calls c = .done c1 ∧ 0 ≤ c1._uploadCounter := by
  induction calls generalizing c with
  | nil => exact ⟨c, rfl, h0⟩
  | cons x rest ih =>
    obtain ⟨c1, hc, h01, _⟩ := call_nonneg c x h0
    obtain ⟨c2, hc2, h02⟩ := ih c1 h01
    exact ⟨c2, by simp [runCalls, hc, Run.andThen, hc2], h02⟩

/-- The counter after a sequence in which no complete comes without an upload
in flight: starts minus completes are added. -/
theorem runCalls_counter (calls : List Call) (c : Controller)
    (hw : c._isExpenseWizard = true) (h0 : 0 ≤ c._uploadCounter)
    (hp : c.published = (recordExists c.model c.handle && decide (0 < c._uploadCounter)))
    (hpre : ∀ j, ((calls.take j).count Call.uploadComplete : Int) ≤
      (calls.take j).count Call.uploadStart + c._uploadCounter) :
    ∃ c1, runCalls calls c = .done c1 ∧
      c1._uploadCounter =
        c._uploadCounter + calls.count Call.uploadStart - calls.count Call.uploadComplete ∧
      c1.published = (recordExists c1.model c1.handle && decide (0 < c1._uploadCounter)) := by
  induction calls generalizing c with
  | nil => exact ⟨c, rfl, by simp, hp⟩
  | cons x rest ih =>
    obtain ⟨c1, hc, hw1, h01, hp1, _, hk⟩ := call_tracking c x hw h0 hp
    cases x with
    | uploadStart =>
      simp only at hk
      have hpre1 : ∀ j, ((rest.take j).count Call.uploadComplete : Int) ≤
          (rest.take j).count Call.uploadStart + c1._uploadCounter := by
        intro j
        have := hpre (j + 1)
        simp [List.take_succ_cons] at this
        omega
      obtain ⟨c2, hc2, hk2, hp2⟩ := ih c1 hw1 h01 hp1 hpre1
      refine ⟨c2, by simp [runCalls, hc, Run.andThen, hc2], ?_, hp2⟩
      simp [hk2, hk]
      omega
    | uploadComplete =>
      simp only at hk
      have h1 : 1 ≤ c._uploadCounter := by
        have := hpre 1
        simpa using this
      have hpre1 : ∀ j, ((rest.take j).count Call.uploadComplete : Int) ≤
          (rest.take j).count Call.uploadStart + c1._uploadCounter := by
        intro j
        have := hpre (j + 1)
        simp [List.take_succ_cons] at this
        omega
      obtain ⟨c2, hc2, hk2, hp2⟩ := ih c1 hw1 h01 hp1 hpre1
      refine ⟨c2, by simp [runCalls, hc, Run.andThen, hc2], ?_, hp2⟩
      simp [hk2, hk]
      omega

theorem onUploadComplete_counter (c : Controller) (hw : c._isExpenseWizard = true) :
    ∃ c1, c._onUploadComplete = .done c1 ∧ c1._isExpenseWizard = true ∧
      c1._uploadCounter = max 0 (c._uploadCounter - 1) := by
  refine ⟨_, onUploadComplete_eq c, ?_⟩
  split_ifs <;> simp_all

/-! ## The claims about the counter -/

/-- C1: on a freshly initialised wizard controller, after every call of every
finite sequence of `_onUploadStart` / `_onUploadComplete` calls (that is, after
each initial segment `calls.take k`) the calls have returned and
`_uploadCounter` is at least zero. -/
theorem uploadCounter_nonneg_after_every_call (model : Option BasicModel)
    (handle : Handle) (calls : List Call) (k : Nat) :
    ∃ c, runCalls (calls.take k) (FormController.init wizardModel model handle) = .done c ∧
      0 ≤ c._uploadCounter :=
  runCalls_nonneg _ _ (by simp [FormController.init])

/-- C2: on a wizard controller whose record exists, started with
`_uploadCounter = 0` and `is_uploading = false`, after every call of every
finite sequence of `_onUploadStart` / `_onUploadComplete` calls the value of
`is_uploading` last published through `notifyChanges` equals
`_uploadCounter > 0`. -/
theorem published_eq_counter_pos_after_every_call (model : Option BasicModel)
    (handle : Handle) (hrec : recordExists model handle = true)
    (hinit : (FormController.init wizardModel model handle).published = false)
    (calls : List Call) (k : Nat) :
    ∃ c, runCalls (calls.take k) (FormController.init wizardModel model handle) = .done c ∧
      c.published = decide (0 < c._uploadCounter) := by
  obtain ⟨c, hc, _, _, hp, hr⟩ :=
    runCalls_tracking (calls.take k) (FormController.init wizardModel model handle)
      (by simp [FormController.init]) (by simp [FormController.init])
      (by rw [hinit]; simp [FormController.init])
  refine ⟨c, hc, ?_⟩
  have hr1 : recordExists c.model c.handle = true := by
    rw [hr]; simpa [FormController.init] using hrec
  simpa [hr1] using hp

/-- Witness for C2: two of the calls start, start, complete on a wizard whose
record exists. -/
theorem published_eq_counter_pos_after_every_call_witness :
    recordExists (some ⟨some [("h", ⟨none⟩)], [], 0⟩) "h" = true ∧
    (FormController.init wizardModel (some ⟨some [("h", ⟨none⟩)], [], 0⟩) "h").published
      = false ∧
    ∃ c, runCalls ([Call.uploadStart, Call.uploadStart, Call.uploadComplete].take 2)
        (FormController.init wizardModel (some ⟨some [("h", ⟨none⟩)], [], 0⟩) "h") = .done c ∧
      c.published = decide (0 < c._uploadCounter) :=
  ⟨by decide, by decide,
    published_eq_counter_pos_after_every_call _ _ (by decide) (by decide) _ _⟩

/-- C4: on a wizard controller that starts idle (`_uploadCounter = 0`,
`is_uploading = false`), every sequence of `n` starts and `n` completes in which
no initial segment has more completes than starts returns and ends idle:
`_uploadCounter = 0` and the last published `is_uploading` is `false`.  The
hooks carry no file identity, so the order in which uploads finish shows only
as the interleaving of the calls. -/
theorem balanced_calls_end_idle (model : Option BasicModel) (handle : Handle)
    (hinit : (FormController.init wizardModel model handle).published = false)
    (n : Nat) (calls : List Call)
    (hstart : calls.count Call.uploadStart = n)
    (hcomplete : calls.count Call.uploadComplete = n)
    (hpre : ∀ j, (calls.take j).count Call.uploadComplete ≤
      (calls.take j).count Call.uploadStart) :
    ∃ c, runCalls calls (FormController.init wizardModel model handle) = .done c ∧
      c._uploadCounter = 0 ∧ c.published = false := by
  obtain ⟨c, hc, hk, hp⟩ :=
    runCalls_counter calls (FormController.init wizardModel model handle)
      (by simp [FormController.init]) (by simp [FormController.init])
      (by rw [hinit]; simp [FormController.init])
      (by intro j; have := hpre j; simp [FormController.init]; omega)
  have hk0 : c._uploadCounter = 0 := by
    rw [hk, hstart, hcomplete]; simp [FormController.init]
  exact ⟨c, hc, hk0, by rw [hp, hk0]; simp⟩

/-- Witness for C4: three uploads, the second one finishing before the third
one starts. -/
theorem balanced_calls_end_idle_witness :
    (FormController.init wizardModel (some ⟨some [("h", ⟨none⟩)], [], 0⟩) "h").published
      = false ∧
    ∃ c, runCalls [Call.uploadStart, Call.uploadStart, Call.uploadComplete,
          Call.uploadStart, Call.uploadComplete, Call.uploadComplete]
        (FormController.init wizardModel (some ⟨some [("h", ⟨none⟩)], [], 0⟩) "h") = .done c ∧
      c._uploadCounter = 0 ∧ c.published = false :=
  ⟨by decide,
    balanced_calls_end_idle _ _ (by decide) 3 _ (by decide) (by decide) (by
      intro j
      rcases j with _ | _ | _ | _ | _ | _ | _ | j <;> simp [List.take])⟩

/-- C5: on a wizard controller with `_uploadCounter = c ≥ 0`, `n` consecutive
`_onUploadComplete` calls return and leave the counter at `max 0 (c - n)`; a
single complete on a counter of `0` leaves it at `0`. -/
theorem repeated_complete_clamps_at_zero (c : Controller)
    (hw : c._isExpenseWizard = true) (h0 : 0 ≤ c._uploadCounter) (n : Nat) :
    (∃ c1, repeatRun Controller._onUploadComplete n c = .done c1 ∧
      c1._uploadCounter = max 0 (c._uploadCounter - n)) ∧
    (c._uploadCounter = 0 →
      ∃ c1, c._onUploadComplete = .done c1 ∧ c1._uploadCounter = 0) := by
  constructor
  · induction n generalizing c with
    | zero => exact ⟨c, rfl, by simp; omega⟩
    | succ n ih =>
      obtain ⟨c1, hc, hw1, hk⟩ := onUploadComplete_counter c hw
      obtain ⟨c2, hc2, hk2⟩ := ih c1 hw1 (by omega)
      refine ⟨c2, by simp [repeatRun, hc, Run.andThen, hc2], ?_⟩
      rw [hk2, hk]; push_cast; omega
  · intro hz
    obtain ⟨c1, hc, _, hk⟩ := onUploadComplete_counter c hw
    exact ⟨c1, hc, by rw [hk, hz]; simp⟩


/-- Witness for C5: three completes on an idle wizard controller. -/
theorem repeated_complete_clamps_at_zero_witness :
    (∃ c1, repeatRun Controller._onUploadComplete 3
        (FormController.init wizardModel none "h") = .done c1 ∧
      c1._uploadCounter =
        max 0 ((FormController.init wizardModel none "h")._uploadCounter - (3 : Nat))) ∧
    (∃ c1, (FormController.init wizardModel none "h")._onUploadComplete = .done c1 ∧
      c1._uploadCounter = 0) :=
  ⟨(repeated_complete_clamps_at_zero (FormController.init wizardModel none "h")
      (by decide) (by decide) 3).1,
    (repeated_complete_clamps_at_zero (FormController.init wizardModel none "h")
      (by decide) (by decide) 3).2 rfl⟩

/-! ## Destruction of the record -/

/-- One hook call on a wizard controller returns, moves the counter, and keeps
the flag and the handle. -/
theorem call_frame (c : Controller) (x : Call) (hw : c._isExpenseWizard = true) :
    ∃ c1, c.call x = .done c1 ∧ c1._isExpenseWizard = true ∧ c1.handle = c.handle ∧
      c1._uploadCounter =
        (match x with
          | .uploadStart => c._uploadCounter + 1
          | .uploadComplete => max 0 (c._uploadCounter - 1)) := by
  cases x with
  | uploadStart =>
    refine ⟨_, onUploadStart_eq c, ?_⟩
    split_ifs <;> simp_all
  | uploadComplete =>
    refine ⟨_, onUploadComplete_eq c, ?_⟩
    split_ifs <;> simp_all

/-- C6 as stated fails: after start, start, complete the counter is `1`; with
the model gone, one more complete returns but lowers the counter to `0`. -/
theorem complete_after_destruction_changes_counter :
    ∃ c3 c4,
      runCalls [Call.uploadStart, Call.uploadStart, Call.uploadComplete]
        (FormController.init wizardModel (some ⟨some [("h", ⟨none⟩)], [], 0⟩) "h")
        = .done c3 ∧
      Controller._onUploadComplete { c3 with model := none } = .done c4 ∧
      c4._uploadCounter ≠ c3._uploadCounter := by
  refine ⟨_, _, rfl, rfl, ?_⟩
  decide

/-- C6, amended: after start, start, complete the counter is `1`; once the
record is gone (`model`, `model.localData` or `localData[handle]` absent) a
further `_onUploadComplete` returns without raising, leaves the model exactly as
it was at destruction (no `notifyChanges` call, no record written or created,
the published `is_uploading` unchanged), and lowers the counter from `1` to
`0`. -/
theorem complete_after_destruction (model : Option BasicModel) (handle : Handle)
    (destroyed : Option BasicModel) (hgone : recordExists destroyed handle = false) :
    ∃ c3,
      runCalls [Call.uploadStart, Call.uploadStart, Call.uploadComplete]
        (FormController.init wizardModel model handle) = .done c3 ∧
      c3._uploadCounter = 1 ∧
      Controller._onUploadComplete { c3 with model := destroyed } =
        .done { c3 with model := destroyed, _uploadCounter := 0 } ∧
      Controller.published { c3 with model := destroyed, _uploadCounter := 0 } =
        Controller.published { c3 with model := destroyed } := by
  obtain ⟨c1, hc1, hw1, hh1, hk1⟩ :=
    call_frame (FormController.init wizardModel model handle) .uploadStart
      (by simp [FormController.init])
  obtain ⟨c2, hc2, hw2, hh2, hk2⟩ := call_frame c1 .uploadStart hw1
  obtain ⟨c3, hc3, hw3, hh3, hk3⟩ := call_frame c2 .uploadComplete hw2
  have hk : c3._uploadCounter = 1 := by
    simp only at hk1 hk2 hk3
    rw [hk3, hk2, hk1]; simp [FormController.init]
  have hh : c3.handle = handle := by
    rw [hh3, hh2, hh1]; rfl
  refine ⟨c3, by simp [runCalls, hc1, hc2, hc3, Run.andThen], hk, ?_, rfl⟩
  rw [onUploadComplete_eq]
  simp [hw3, hk, hh, hgone]

/-- Witness for C6, amended: the whole model is gone. -/
theorem complete_after_destruction_witness :
    recordExists none "h" = false ∧
    ∃ c3,
      runCalls [Call.uploadStart, Call.uploadStart, Call.uploadComplete]
        (FormController.init wizardModel (some ⟨some [("h", ⟨none⟩)], [], 0⟩) "h")
        = .done c3 ∧
      c3._uploadCounter = 1 ∧
      Controller._onUploadComplete { c3 with model := none } =
        .done { c3 with model := none, _uploadCounter := 0 } ∧
      Controller.published { c3 with model := none, _uploadCounter := 0 } =
        Controller.published { c3 with model := none } :=
  ⟨by decide, complete_after_destruction _ _ none (by decide)⟩

/-! ## Button refresh -/

theorem setPrimaryText_length (bs : List Button) (t : String) :
    (setPrimaryText bs t).length = bs.length := by
  simp [setPrimaryText]

theorem setPrimaryText_disabled (bs : List Button) (t : String) :
    (setPrimaryText bs t).map Button.disabled = bs.map Button.disabled := by
  simp only [setPrimaryText, List.map_map]
  apply List.map_congr_left
  intro b _
  by_cases hb : b.primary = true <;> simp [hb]

theorem setPrimaryText_primary (bs : List Button) (t : String) :
    (setPrimaryText bs t).map Button.primary = bs.map Button.primary := by
  simp only [setPrimaryText, List.map_map]
  apply List.map_congr_left
  intro b _
  by_cases hb : b.primary = true <;> simp [hb]

theorem setPrimaryText_text (bs : List Button) (t : String) (i : Nat)
    (h1 : i < (setPrimaryText bs t).length) (h : i < bs.length) :
    ((setPrimaryText bs t).get ⟨i, h1⟩).text =
      if (bs.get ⟨i, h⟩).primary then t else (bs.get ⟨i, h⟩).text := by
  simp only [setPrimaryText, List.get_eq_getElem, List.getElem_map]
  by_cases hb : bs[i].primary = true <;> simp [hb]

/-- C7: on a wizard controller with rendered buttons and a record that has
data, the button refresh `_updateButtonStates`, and so `renderButtons` and
`update` once the base method has returned, returns and changes nothing but
`$buttons`; there, every `btn-primary` button gets the translated
`Uploading...` label when the record's `is_uploading` is true and the translated
`Submit Expenses` label otherwise, every other button keeps its text, and every
button keeps its `disabled` state and its class. -/
theorem button_refresh_writes_label_only (_t : String → String) (c : Controller)
    (bs : List Button) (m : BasicModel) (localData : List (Handle × Record))
    (r : Record) (d : RecordData)
    (hb : c.buttons = some bs) (hw : c._isExpenseWizard = true)
    (hm : c.model = some m) (hl : m.localData = some localData)
    (hr : localData.lookup c.handle = some r) (hd : r.data = some d)
    (sup : Controller → Run Controller) (c0 : Controller) (hsup : sup c0 = .done c) :
    ∃ bs1,
      c._updateButtonStates _t = .done { c with buttons := some bs1 } ∧
      c0.renderButtons _t sup = .done { c with buttons := some bs1 } ∧
      c0.update _t sup = .done { c with buttons := some bs1 } ∧
      bs1.map Button.disabled = bs.map Button.disabled ∧
      bs1.map Button.primary = bs.map Button.primary ∧
      ∀ (i : Nat) (h1 : i < bs1.length) (h : i < bs.length),
        (bs1.get ⟨i, h1⟩).text =
          if (bs.get ⟨i, h⟩).primary then
            (if d.is_uploading = some true then _t "Uploading..."
              else _t "Submit Expenses")
          else (bs.get ⟨i, h⟩).text := by
  have hrefresh : c._updateButtonStates _t =
      .done { c with buttons := some (setPrimaryText bs
        (if d.is_uploading = some true then _t "Uploading..."
          else _t "Submit Expenses")) } := by
    unfold Controller._updateButtonStates
    simp only [hb, hw, hm, hl, hr, hd, Option.bind, if_true]
    by_cases hu : d.is_uploading = some true <;> simp [hu]
  refine ⟨_, hrefresh, ?_, ?_, setPrimaryText_disabled _ _, setPrimaryText_primary _ _,
    fun i h1 h => setPrimaryText_text _ _ i h1 h⟩
  · simp [Controller.renderButtons, hsup, Run.andThen, hw, hrefresh]
  · simp [Controller.update, hsup, Run.andThen, hw, hrefresh]

/-- Witness for C7: a disabled submit button and a cancel button while an
upload is running. -/
theorem button_refresh_writes_label_only_witness :
    ∃ bs1,
      Controller._updateButtonStates id
          { FormController.init wizardModel
              (some ⟨some [("h", ⟨some ⟨some true⟩⟩)], [], 0⟩) "h" with
            buttons := some [⟨true, "Submit Expenses", true⟩, ⟨false, "Cancel", false⟩] } =
        .done
          { FormController.init wizardModel
              (some ⟨some [("h", ⟨some ⟨some true⟩⟩)], [], 0⟩) "h" with
            buttons := some bs1 } ∧
      Controller.renderButtons id
          (fun c0 => .done { c0 with
            buttons := some [⟨true, "Submit Expenses", true⟩, ⟨false, "Cancel", false⟩] })
          (FormController.init wizardModel
            (some ⟨some [("h", ⟨some ⟨some true⟩⟩)], [], 0⟩) "h") =
        .done
          { FormController.init wizardModel
              (some ⟨some [("h", ⟨some ⟨some true⟩⟩)], [], 0⟩) "h" with
            buttons := some bs1 } ∧
      Controller.update id
          (fun c0 => .done { c0 with
            buttons := some [⟨true, "Submit Expenses", true⟩, ⟨false, "Cancel", false⟩] })
          (FormController.init wizardModel
            (some ⟨some [("h", ⟨some ⟨some true⟩⟩)], [], 0⟩) "h") =
        .done
          { FormController.init wizardModel
              (some ⟨some [("h", ⟨some ⟨some true⟩⟩)], [], 0⟩) "h" with
            buttons := some bs1 } ∧
      bs1.map Button.disabled =
        [(⟨true, "Submit Expenses", true⟩ : Button), ⟨false, "Cancel", false⟩].map
          Button.disabled ∧
      bs1.map Button.primary =
        [(⟨true, "Submit Expenses", true⟩ : Button), ⟨false, "Cancel", false⟩].map
          Button.primary ∧
      ∀ (i : Nat) (h1 : i < bs1.length)
        (h : i < [(⟨true, "Submit Expenses", true⟩ : Button), ⟨false, "Cancel", false⟩].length),
        (bs1.get ⟨i, h1⟩).text =
          if ([(⟨true, "Submit Expenses", true⟩ : Button), ⟨false, "Cancel", false⟩].get
              ⟨i, h⟩).primary then
            (if (⟨some true⟩ : RecordData).is_uploading = some true then id "Uploading..."
              else id "Submit Expenses")
          else ([(⟨true, "Submit Expenses", true⟩ : Button), ⟨false, "Cancel", false⟩].get
              ⟨i, h⟩).text :=
  button_refresh_writes_label_only id
    { FormController.init wizardModel
        (some ⟨some [("h", ⟨some ⟨some true⟩⟩)], [], 0⟩) "h" with
      buttons := some [⟨true, "Submit Expenses", true⟩, ⟨false, "Cancel", false⟩] }
    [⟨true, "Submit Expenses", true⟩, ⟨false, "Cancel", false⟩]
    ⟨some [("h", ⟨some ⟨some true⟩⟩)], [], 0⟩ [("h", ⟨some ⟨some true⟩⟩)]
    ⟨some ⟨some true⟩⟩ ⟨some true⟩ rfl (by decide) rfl rfl (by decide) rfl
    (fun c0 => .done { c0 with
      buttons := some [⟨true, "Submit Expenses", true⟩, ⟨false, "Cancel", false⟩] })
    (FormController.init wizardModel
      (some ⟨some [("h", ⟨some ⟨some true⟩⟩)], [], 0⟩) "h") rfl

/-! ## Walking up the parent chain -/

theorem callOnUploadStart_done (p : Component) :
    ∃ p1, p.callOnUploadStart = .done p1 := by
  cases p with
  | widget a b => exact ⟨_, rfl⟩
  | formController c => exact ⟨_, by rw [Component.callOnUploadStart, onUploadStart_eq]⟩

theorem callOnUploadComplete_done (p : Component) :
    ∃ p1, p.callOnUploadComplete = .done p1 := by
  cases p with
  | widget a b => exact ⟨_, rfl⟩
  | formController c =>
    exact ⟨_, by rw [Component.callOnUploadComplete, onUploadComplete_eq]⟩

/-- The loop stops at the first component for which `has` holds. -/
theorem walk_stops_at_nearest (has : Component → Bool) (pre post : List Component)
    (p : Component) (hpre : ∀ q ∈ pre, has q = false) (hp : has p = true) :
    (pre ++ p :: post).takeWhile (fun q => !has q) = pre ∧
      (pre ++ p :: post).dropWhile (fun q => !has q) = p :: post := by
  induction pre with
  | nil => simp [List.takeWhile, List.dropWhile, hp]
  | cons q rest ih =>
    have hq : has q = false := hpre q (by simp)
    have := ih (fun x hx => hpre x (by simp [hx]))
    simp [List.takeWhile, List.dropWhile, hq, this]

/-- The loop runs off the end of a chain without the hook. -/
theorem walk_finds_nothing (has : Component → Bool) (l : List Component)
    (h : ∀ q ∈ l, has q = false) : l.dropWhile (fun q => !has q) = [] := by
  induction l with
  | nil => rfl
  | cons q rest ih =>
    have hq : has q = false := h q (by simp)
    simp [List.dropWhile, hq, ih (fun x hx => h x (by simp [hx]))]

theorem notifyUploadStart_nearest (env : FieldEnv) (pre post : List Component)
    (p : Component) (hsplit : env.parents = pre ++ p :: post)
    (hpre : ∀ q ∈ pre, q.hasOnUploadStart = false) (hp : p.hasOnUploadStart = true) :
    ∃ p1, p.callOnUploadStart = .done p1 ∧
      env._notifyUploadStart =
        .done { parents := pre ++ p1 :: post
                trace := env.trace ++ [Event.notifyUploadStart, Event.onUploadStart pre.length] } := by
  obtain ⟨p1, hp1⟩ := callOnUploadStart_done p
  obtain ⟨ht, hd⟩ := walk_stops_at_nearest Component.hasOnUploadStart pre post p hpre hp
  refine ⟨p1, hp1, ?_⟩
  unfold FieldEnv._notifyUploadStart
  simp only [hsplit, ht, hd, hp, hp1, if_true]
  simp

theorem notifyUploadComplete_nearest (env : FieldEnv) (pre post : List Component)
    (p : Component) (hsplit : env.parents = pre ++ p :: post)
    (hpre : ∀ q ∈ pre, q.hasOnUploadComplete = false) (hp : p.hasOnUploadComplete = true) :
    ∃ p1, p.callOnUploadComplete = .done p1 ∧
      env._notifyUploadComplete =
        .done { parents := pre ++ p1 :: post
                trace := env.trace ++
                  [Event.notifyUploadComplete, Event.onUploadComplete pre.length] } := by
  obtain ⟨p1, hp1⟩ := callOnUploadComplete_done p
  obtain ⟨ht, hd⟩ := walk_stops_at_nearest Component.hasOnUploadComplete pre post p hpre hp
  refine ⟨p1, hp1, ?_⟩
  unfold FieldEnv._notifyUploadComplete
  simp only [hsplit, ht, hd, hp, hp1, if_true]
  simp

theorem notifyUploadStart_unhooked (env : FieldEnv)
    (h : ∀ q ∈ env.parents, q.hasOnUploadStart = false) :
    env._notifyUploadStart =
      .done { env with trace := env.trace ++ [Event.notifyUploadStart] } := by
  unfold FieldEnv._notifyUploadStart
  simp only [walk_finds_nothing Component.hasOnUploadStart env.parents h]

theorem notifyUploadComplete_unhooked (env : FieldEnv)
    (h : ∀ q ∈ env.parents, q.hasOnUploadComplete = false) :
    env._notifyUploadComplete =
      .done { env with trace := env.trace ++ [Event.notifyUploadComplete] } := by
  unfold FieldEnv._notifyUploadComplete
  simp only [walk_finds_nothing Component.hasOnUploadComplete env.parents h]

/-- Every chain either has a nearest component with the hook or none at all. -/
theorem nearest_or_none (has : Component → Bool) (l : List Component) :
    (∀ q ∈ l, has q = false) ∨
      ∃ pre p post, l = pre ++ p :: post ∧ (∀ q ∈ pre, has q = false) ∧ has p = true := by
  induction l with
  | nil => exact Or.inl (by simp)
  | cons q rest ih =>
    cases hq : has q with
    | true => exact Or.inr ⟨[], q, rest, rfl, by simp, hq⟩
    | false =>
      rcases ih with hnone | ⟨pre, p, post, hs, hpre, hp⟩
      · exact Or.inl (by simpa [hq] using hnone)
      · exact Or.inr ⟨q :: pre, p, post, by simp [hs], by simpa [hq] using hpre, hp⟩

theorem notifyUploadStart_done (env : FieldEnv) :
    ∃ env1, env._notifyUploadStart = .done env1 := by
  rcases nearest_or_none Component.hasOnUploadStart env.parents with
    hnone | ⟨pre, p, post, hs, hpre, hp⟩
  · exact ⟨_, notifyUploadStart_unhooked env hnone⟩
  · obtain ⟨p1, _, h⟩ := notifyUploadStart_nearest env pre post p hs hpre hp
    exact ⟨_, h⟩

theorem notifyUploadComplete_done (env : FieldEnv) :
    ∃ env1, env._notifyUploadComplete = .done env1 := by
  rcases nearest_or_none Component.hasOnUploadComplete env.parents with
    hnone | ⟨pre, p, post, hs, hpre, hp⟩
  · exact ⟨_, notifyUploadComplete_unhooked env hnone⟩
  · obtain ⟨p1, _, h⟩ := notifyUploadComplete_nearest env pre post p hs hpre hp
    exact ⟨_, h⟩

/-- C8: for every finite parent chain, `_notifyUploadStart` and
`_notifyUploadComplete` return without raising.  When the chain is
`pre ++ p :: post` with no hook on any component of `pre` and the hook on `p`
(so `p` is the nearest ancestor implementing it), the hook is invoked exactly
once, on `p` (depth `pre.length`), and no other component changes.  When no
ancestor implements the hook, nothing is invoked and nothing changes but the
record that the notification method was entered. -/
theorem notify_calls_nearest_hook_once (env : FieldEnv) :
    (∃ env1, env._notifyUploadStart = .done env1) ∧
    (∃ env1, env._notifyUploadComplete = .done env1) ∧
    (∀ pre p post, env.parents = pre ++ p :: post →
      (∀ q ∈ pre, q.hasOnUploadStart = false) → p.hasOnUploadStart = true →
      ∃ p1, p.callOnUploadStart = .done p1 ∧
        env._notifyUploadStart =
          .done { parents := pre ++ p1 :: post
                  trace := env.trace ++
                    [Event.notifyUploadStart, Event.onUploadStart pre.length] }) ∧
    (∀ pre p post, env.parents = pre ++ p :: post →
      (∀ q ∈ pre, q.hasOnUploadComplete = false) → p.hasOnUploadComplete = true →
      ∃ p1, p.callOnUploadComplete = .done p1 ∧
        env._notifyUploadComplete =
          .done { parents := pre ++ p1 :: post
                  trace := env.trace ++
                    [Event.notifyUploadComplete, Event.onUploadComplete pre.length] }) ∧
    ((∀ q ∈ env.parents, q.hasOnUploadStart = false) →
      env._notifyUploadStart =
        .done { env with trace := env.trace ++ [Event.notifyUploadStart] }) ∧
    ((∀ q ∈ env.parents, q.hasOnUploadComplete = false) →
      env._notifyUploadComplete =
        .done { env with trace := env.trace ++ [Event.notifyUploadComplete] }) :=
  ⟨notifyUploadStart_done env, notifyUploadComplete_done env,
    fun pre p post => notifyUploadStart_nearest env pre post p,
    fun pre p post => notifyUploadComplete_nearest env pre post p,
    notifyUploadStart_unhooked env, notifyUploadComplete_unhooked env⟩

/-- Witness for C8: a renderer without hooks below a wizard form controller
below another form controller; both notifications reach the wizard only. -/
theorem notify_calls_nearest_hook_once_witness :
    (∃ p1, (Component.formController (FormController.init wizardModel none "h")).callOnUploadStart
        = .done p1 ∧
      FieldEnv._notifyUploadStart
          { parents := [.widget false false,
              .formController (FormController.init wizardModel none "h"),
              .formController (FormController.init "res.partner" none "g")]
            trace := [] } =
        .done { parents := [.widget false false] ++ p1 ::
                  [.formController (FormController.init "res.partner" none "g")]
                trace := [] ++ [Event.notifyUploadStart, Event.onUploadStart 1] }) ∧
    (FieldEnv._notifyUploadComplete { parents := [.widget true false], trace := [] } =
      .done { parents := [.widget true false], trace := [] ++ [Event.notifyUploadComplete] }) :=
  ⟨(notify_calls_nearest_hook_once
      { parents := [.widget false false,
          .formController (FormController.init wizardModel none "h"),
          .formController (FormController.init "res.partner" none "g")]
        trace := [] }).2.2.1 [.widget false false]
      (.formController (FormController.init wizardModel none "h"))
      [.formController (FormController.init "res.partner" none "g")] rfl (by decide) rfl,
    (notify_calls_nearest_hook_once
      { parents := [.widget true false], trace := [] }).2.2.2.2.2 (by decide)⟩

/-! ## Notifications issued by `_uploadFiles` -/

theorem notifyUploadStart_counts (env : FieldEnv) :
    ∃ env1, env._notifyUploadStart = .done env1 ∧
      env1.trace.count Event.notifyUploadStart =
        env.trace.count Event.notifyUploadStart + 1 ∧
      env1.trace.count Event.notifyUploadComplete =
        env.trace.count Event.notifyUploadComplete := by
  rcases nearest_or_none Component.hasOnUploadStart env.parents with
    hnone | ⟨pre, p, post, hs, hpre, hp⟩
  · exact ⟨_, notifyUploadStart_unhooked env hnone, by simp, by simp⟩
  · obtain ⟨p1, _, h⟩ := notifyUploadStart_nearest env pre post p hs hpre hp
    exact ⟨_, h, by simp, by simp⟩

theorem notifyUploadComplete_counts (env : FieldEnv) :
    ∃ env1, env._notifyUploadComplete = .done env1 ∧
      env1.trace.count Event.notifyUploadStart =
        env.trace.count Event.notifyUploadStart ∧
      env1.trace.count Event.notifyUploadComplete =
        env.trace.count Event.notifyUploadComplete + 1 := by
  rcases nearest_or_none Component.hasOnUploadComplete env.parents with
    hnone | ⟨pre, p, post, hs, hpre, hp⟩
  · exact ⟨_, notifyUploadComplete_unhooked env hnone, by simp, by simp⟩
  · obtain ⟨p1, _, h⟩ := notifyUploadComplete_nearest env pre post p hs hpre hp
    exact ⟨_, h, by simp, by simp⟩

theorem repeat_notifyUploadStart_counts (n : Nat) (env : FieldEnv) :
    ∃ env1, repeatRun FieldEnv._notifyUploadStart n env = .done env1 ∧
      env1.trace.count Event.notifyUploadStart =
        env.trace.count Event.notifyUploadStart + n ∧
      env1.trace.count Event.notifyUploadComplete =
        env.trace.count Event.notifyUploadComplete := by
  induction n generalizing env with
  | zero => exact ⟨env, rfl, rfl, rfl⟩
  | succ n ih =>
    obtain ⟨env1, h1, hs1, hc1⟩ := notifyUploadStart_counts env
    obtain ⟨env2, h2, hs2, hc2⟩ := ih env1
    exact ⟨env2, by simp [repeatRun, h1, Run.andThen, h2], by omega, by omega⟩

theorem repeat_notifyUploadComplete_counts (n : Nat) (env : FieldEnv) :
    ∃ env1, repeatRun FieldEnv._notifyUploadComplete n env = .done env1 ∧
      env1.trace.count Event.notifyUploadStart =
        env.trace.count Event.notifyUploadStart ∧
      env1.trace.count Event.notifyUploadComplete =
        env.trace.count Event.notifyUploadComplete + n := by
  induction n generalizing env with
  | zero => exact ⟨env, rfl, rfl, rfl⟩
  | succ n ih =>
    obtain ⟨env1, h1, hs1, hc1⟩ := notifyUploadComplete_counts env
    obtain ⟨env2, h2, hs2, hc2⟩ := ih env1
    exact ⟨env2, by simp [repeatRun, h1, Run.andThen, h2], by omega, by omega⟩

theorem wizard_field_flag :
    (FieldMany2ManyBinaryUploadTracked.init wizardModel)._isExpenseWizard = true := by
  simp [FieldMany2ManyBinaryUploadTracked.init]

/-- C3: on the wizard model, when the base upload returns a promise that is
fulfilled or rejected, `_uploadFiles` returns that promise, has called
`_notifyUploadStart` exactly `files.length` times and `_notifyUploadComplete`
not at all when it returns, and once the promise has settled
`_notifyUploadComplete` has been called exactly `files.length` times, with no
further start. -/
theorem uploadFiles_completes_once_per_file (files : List File) (env : FieldEnv)
    (s : Settlement) (hs : s = .fulfilled ∨ s = .rejected) :
    (Field._uploadFiles (FieldMany2ManyBinaryUploadTracked.init wizardModel) files
        (.ok (.promise s)) env).completion = .ok (.promise s) ∧
    (Field._uploadFiles (FieldMany2ManyBinaryUploadTracked.init wizardModel) files
        (.ok (.promise s)) env).env.trace.count Event.notifyUploadStart =
      env.trace.count Event.notifyUploadStart + files.length ∧
    (Field._uploadFiles (FieldMany2ManyBinaryUploadTracked.init wizardModel) files
        (.ok (.promise s)) env).env.trace.count Event.notifyUploadComplete =
      env.trace.count Event.notifyUploadComplete ∧
    (Field.settle (FieldMany2ManyBinaryUploadTracked.init wizardModel) files
        (Field._uploadFiles (FieldMany2ManyBinaryUploadTracked.init wizardModel) files
          (.ok (.promise s)) env)).trace.count Event.notifyUploadComplete =
      env.trace.count Event.notifyUploadComplete + files.length ∧
    (Field.settle (FieldMany2ManyBinaryUploadTracked.init wizardModel) files
        (Field._uploadFiles (FieldMany2ManyBinaryUploadTracked.init wizardModel) files
          (.ok (.promise s)) env)).trace.count Event.notifyUploadStart =
      env.trace.count Event.notifyUploadStart + files.length := by
  obtain ⟨env1, h1, hs1, hc1⟩ := repeat_notifyUploadStart_counts files.length env
  obtain ⟨env2, h2, hs2, hc2⟩ := repeat_notifyUploadComplete_counts files.length env1
  have hcall : Field._uploadFiles (FieldMany2ManyBinaryUploadTracked.init wizardModel)
      files (.ok (.promise s)) env =
      { env := env1, completion := .ok (.promise s), chained := true } := by
    simp [Field._uploadFiles, wizard_field_flag, h1, BaseResult.truthy, BaseResult.hasThen]
  have hsettle : Field.settle (FieldMany2ManyBinaryUploadTracked.init wizardModel) files
      { env := env1, completion := .ok (.promise s), chained := true } = env2 := by
    rcases hs with rfl | rfl
    · simp [Field.settle, Field.runCallbacks, Field.onFulfilled, h2]
    · simp [Field.settle, Field.runCallbacks, Field.onRejected, h2, Run.state]
  rw [hcall, hsettle]
  exact ⟨rfl, hs1, hc1, by simp only [hc2, hc1], by simp only [hs2, hs1]⟩

/-- Witness for C3: two files below a wizard controller, the upload rejected. -/
theorem uploadFiles_completes_once_per_file_witness :
    (Field._uploadFiles (FieldMany2ManyBinaryUploadTracked.init wizardModel) ["a", "b"]
        (.ok (.promise .rejected))
        { parents := [.formController (FormController.init wizardModel none "h")]
          trace := [] }).completion = .ok (.promise .rejected) ∧
    (Field._uploadFiles (FieldMany2ManyBinaryUploadTracked.init wizardModel) ["a", "b"]
        (.ok (.promise .rejected))
        { parents := [.formController (FormController.init wizardModel none "h")]
          trace := [] }).env.trace.count Event.notifyUploadStart =
      ([] : List Event).count Event.notifyUploadStart + ["a", "b"].length ∧
    (Field._uploadFiles (FieldMany2ManyBinaryUploadTracked.init wizardModel) ["a", "b"]
        (.ok (.promise .rejected))
        { parents := [.formController (FormController.init wizardModel none "h")]
          trace := [] }).env.trace.count Event.notifyUploadComplete =
      ([] : List Event).count Event.notifyUploadComplete ∧
    (Field.settle (FieldMany2ManyBinaryUploadTracked.init wizardModel) ["a", "b"]
        (Field._uploadFiles (FieldMany2ManyBinaryUploadTracked.init wizardModel) ["a", "b"]
          (.ok (.promise .rejected))
          { parents := [.formController (FormController.init wizardModel none "h")]
            trace := [] })).trace.count Event.notifyUploadComplete =
      ([] : List Event).count Event.notifyUploadComplete + ["a", "b"].length ∧
    (Field.settle (FieldMany2ManyBinaryUploadTracked.init wizardModel) ["a", "b"]
        (Field._uploadFiles (FieldMany2ManyBinaryUploadTracked.init wizardModel) ["a", "b"]
          (.ok (.promise .rejected))
          { parents := [.formController (FormController.init wizardModel none "h")]
            trace := [] })).trace.count Event.notifyUploadStart =
      ([] : List Event).count Event.notifyUploadStart + ["a", "b"].length :=
  uploadFiles_completes_once_per_file ["a", "b"]
    { parents := [.formController (FormController.init wizardModel none "h")], trace := [] }
    .rejected (Or.inr rfl)

/-! ## The feature is off for other models -/

theorem call_off (c : Controller) (x : Call) (hw : c._isExpenseWizard = false) :
    c.call x = .done c := by
  cases x with
  | uploadStart => simp [Controller.call, onUploadStart_eq, hw]
  | uploadComplete => simp [Controller.call, onUploadComplete_eq, hw]

theorem runCalls_off (calls : List Call) (c : Controller)
    (hw : c._isExpenseWizard = false) : runCalls calls c = .done c := by
  induction calls with
  | nil => rfl
  | cons x rest ih => simp [runCalls, call_off c x hw, Run.andThen, ih]

theorem updateButtonStates_off (_t : String → String) (c : Controller)
    (hw : c._isExpenseWizard = false) : c._updateButtonStates _t = .done c := by
  unfold Controller._updateButtonStates
  cases c.buttons <;> simp [hw]

/-- C9: the gate is opt-in by model name.  For a form controller initialised
with a model name other than the wizard's, whatever buttons the framework has
rendered: every sequence of `_onUploadStart` / `_onUploadComplete` calls returns
and leaves the controller as it was (counter unchanged, nothing published), and
`_updateButtonStates` leaves it as it was; `renderButtons` and `update` do what
the base method does and nothing more (the base method not touching the flag of
the patch).  For an upload field initialised with another model, `_uploadFiles`
issues no notification, attaches no callback, and returns (or raises) what the
base upload returned (or raised). -/
theorem feature_off_for_other_models (name : String) (hname : name ≠ wizardModel)
    (model : Option BasicModel) (handle : Handle) (bs : Option (List Button))
    (_t : String → String) :
    (∀ calls : List Call,
      runCalls calls { FormController.init name model handle with buttons := bs } =
        .done { FormController.init name model handle with buttons := bs }) ∧
    Controller._updateButtonStates _t
        { FormController.init name model handle with buttons := bs } =
      .done { FormController.init name model handle with buttons := bs } ∧
    (∀ sup : Controller → Run Controller,
      (∀ x, (sup x).state._isExpenseWizard = x._isExpenseWizard) →
      Controller.renderButtons _t sup
          { FormController.init name model handle with buttons := bs } =
        sup { FormController.init name model handle with buttons := bs } ∧
      Controller.update _t sup
          { FormController.init name model handle with buttons := bs } =
        sup { FormController.init name model handle with buttons := bs }) ∧
    (∀ (files : List File) (base : Except JsError BaseResult) (env : FieldEnv),
      (Field._uploadFiles (FieldMany2ManyBinaryUploadTracked.init name) files base env).env
        = env ∧
      (Field._uploadFiles (FieldMany2ManyBinaryUploadTracked.init name) files base
        env).completion = base ∧
      (Field._uploadFiles (FieldMany2ManyBinaryUploadTracked.init name) files base
        env).chained = false ∧
      Field.settle (FieldMany2ManyBinaryUploadTracked.init name) files
        (Field._uploadFiles (FieldMany2ManyBinaryUploadTracked.init name) files base env)
        = env) := by
  have hflag : (name == wizardModel) = false := by simpa using hname
  have hw : Controller._isExpenseWizard
      { FormController.init name model handle with buttons := bs } = false := by
    simp [FormController.init, hflag]
  refine ⟨fun calls => runCalls_off calls _ hw, updateButtonStates_off _t _ hw, ?_, ?_⟩
  · intro sup hsup
    have h := hsup { FormController.init name model handle with buttons := bs }
    rw [hw] at h
    cases hs : sup { FormController.init name model handle with buttons := bs } with
    | done c1 =>
      rw [hs] at h
      simp only [Run.state] at h
      simp [Controller.renderButtons, Controller.update, hs, Run.andThen, h]
    | raised e c1 =>
      simp [Controller.renderButtons, Controller.update, hs, Run.andThen]
  · intro files base env
    have hcall : Field._uploadFiles (FieldMany2ManyBinaryUploadTracked.init name) files
        base env = { env := env, completion := base, chained := false } := by
      cases base <;>
        simp [Field._uploadFiles, FieldMany2ManyBinaryUploadTracked.init, hflag]
    rw [hcall]
    exact ⟨rfl, rfl, rfl, by simp [Field.settle]⟩

/-- Witness for C9: a partner form with a rendered save button, and a field
on the partner model uploading two files. -/
theorem feature_off_for_other_models_witness :
    "res.partner" ≠ wizardModel ∧
    runCalls [Call.uploadStart, Call.uploadStart, Call.uploadComplete]
        { FormController.init "res.partner"
            (some ⟨some [("h", ⟨some ⟨some true⟩⟩)], [], 0⟩) "h" with
          buttons := some [⟨true, "Save", false⟩] } =
      .done
        { FormController.init "res.partner"
            (some ⟨some [("h", ⟨some ⟨some true⟩⟩)], [], 0⟩) "h" with
          buttons := some [⟨true, "Save", false⟩] } ∧
    Controller._updateButtonStates id
        { FormController.init "res.partner"
            (some ⟨some [("h", ⟨some ⟨some true⟩⟩)], [], 0⟩) "h" with
          buttons := some [⟨true, "Save", false⟩] } =
      .done
        { FormController.init "res.partner"
            (some ⟨some [("h", ⟨some ⟨some true⟩⟩)], [], 0⟩) "h" with
          buttons := some [⟨true, "Save", false⟩] } ∧
    (Field._uploadFiles (FieldMany2ManyBinaryUploadTracked.init "res.partner") ["a", "b"]
        (.ok (.promise .fulfilled))
        { parents := [.formController (FormController.init wizardModel none "h")]
          trace := [] }).completion = .ok (.promise .fulfilled) ∧
    Field.settle (FieldMany2ManyBinaryUploadTracked.init "res.partner") ["a", "b"]
        (Field._uploadFiles (FieldMany2ManyBinaryUploadTracked.init "res.partner")
          ["a", "b"] (.ok (.promise .fulfilled))
          { parents := [.formController (FormController.init wizardModel none "h")]
            trace := [] }) =
      { parents := [.formController (FormController.init wizardModel none "h")]
        trace := [] } :=
  ⟨by decide,
    (feature_off_for_other_models "res.partner" (by decide)
      (some ⟨some [("h", ⟨some ⟨some true⟩⟩)], [], 0⟩) "h"
      (some [⟨true, "Save", false⟩]) id).1 _,
    (feature_off_for_other_models "res.partner" (by decide)
      (some ⟨some [("h", ⟨some ⟨some true⟩⟩)], [], 0⟩) "h"
      (some [⟨true, "Save", false⟩]) id).2.1,
    ((feature_off_for_other_models "res.partner" (by decide) none "h" none id).2.2.2
      ["a", "b"] (.ok (.promise .fulfilled))
      { parents := [.formController (FormController.init wizardModel none "h")]
        trace := [] }).2.1,
    ((feature_off_for_other_models "res.partner" (by decide) none "h" none id).2.2.2
      ["a", "b"] (.ok (.promise .fulfilled))
      { parents := [.formController (FormController.init wizardModel none "h")]
        trace := [] }).2.2.2⟩

/-! ## A base upload that returns no promise -/

/-- A start hook on a wizard controller: it stays a wizard controller with the
same handle and record, its counter is one higher, and `true` is published when
the record exists. -/
theorem callOnUploadStart_controller (c : Controller) (hw : c._isExpenseWizard = true) :
    ∃ c1, (Component.formController c).callOnUploadStart = .done (.formController c1) ∧
      c1._isExpenseWizard = true ∧ c1._uploadCounter = c._uploadCounter + 1 ∧
      recordExists c1.model c1.handle = recordExists c.model c.handle ∧
      (recordExists c.model c.handle = true → c1.published = true) := by
  refine ⟨_, by rw [Component.callOnUploadStart, onUploadStart_eq], ?_⟩
  obtain ⟨mn, model, h, bs, w, k⟩ := c
  simp only at hw
  subst hw
  cases hr : recordExists model h
  · simp [hr]
  · simp [hr, recordExists_map_notifyChanges, published_map_notifyChanges]

/-- Any number of start notifications below a wizard controller that is the
nearest ancestor with the hook. -/
theorem repeat_notifyUploadStart_controller (n : Nat) (env : FieldEnv)
    (pre post : List Component) (c : Controller)
    (hsplit : env.parents = pre ++ Component.formController c :: post)
    (hpre : ∀ q ∈ pre, q.hasOnUploadStart = false) (hw : c._isExpenseWizard = true) :
    ∃ env1 c1, repeatRun FieldEnv._notifyUploadStart n env = .done env1 ∧
      env1.parents = pre ++ Component.formController c1 :: post ∧
      c1._isExpenseWizard = true ∧ c1._uploadCounter = c._uploadCounter + n ∧
      recordExists c1.model c1.handle = recordExists c.model c.handle ∧
      (0 < n → recordExists c.model c.handle = true → c1.published = true) := by
  induction n generalizing env c with
  | zero => exact ⟨env, c, rfl, hsplit, hw, by simp, rfl, by simp⟩
  | succ n ih =>
    obtain ⟨c1, hcall, hw1, hk1, hr1, hp1⟩ := callOnUploadStart_controller c hw
    obtain ⟨p1, hp, hrun⟩ :=
      notifyUploadStart_nearest env pre post (.formController c) hsplit hpre rfl
    rw [hcall] at hp
    injection hp with hp
    subst hp
    obtain ⟨env2, c2, hrun2, hs2, hw2, hk2, hr2, hp2⟩ :=
      ih { parents := pre ++ Component.formController c1 :: post
           trace := env.trace ++ [Event.notifyUploadStart, Event.onUploadStart pre.length] }
        c1 rfl hw1
    refine ⟨env2, c2, by simp [repeatRun, hrun, Run.andThen, hrun2], hs2, hw2, ?_,
      hr2.trans hr1, ?_⟩
    · rw [hk2, hk1]; push_cast; omega
    · intro _ hrec
      rcases Nat.eq_zero_or_pos n with hn | hn
      · subst hn
        simp only [repeatRun] at hrun2
        injection hrun2 with hrun2
        subst hrun2
        simp only at hs2
        have := List.append_cancel_left hs2
        injection this with h1 _
        injection h1 with h1
        rw [← h1]; exact hp1 hrec
      · exact hp2 hn (hr1.trans hrec)

/-- C10: on the wizard model with a non-empty list of files, when the base
upload returns something that is not a thenable (a falsy value, or an object
without `then`), `_uploadFiles` returns that value with no callback attached,
so nothing runs later; it has issued `files.length` start notifications and no
complete notification, and the wizard controller that is the nearest ancestor
with the hook has its `_uploadCounter` raised by `files.length`, with
`is_uploading` published as `true` when its record exists. -/
theorem uploadFiles_without_promise_never_completes (files : List File)
    (hfiles : files ≠ []) (r : BaseResult)
    (hr : r.truthy = false ∨ r.hasThen = false) (env : FieldEnv)
    (pre post : List Component) (c : Controller)
    (hsplit : env.parents = pre ++ Component.formController c :: post)
    (hpre : ∀ q ∈ pre, q.hasOnUploadStart = false) (hw : c._isExpenseWizard = true) :
    ∃ env1 c1,
      Field._uploadFiles (FieldMany2ManyBinaryUploadTracked.init wizardModel) files
          (.ok r) env = { env := env1, completion := .ok r, chained := false } ∧
      Field.settle (FieldMany2ManyBinaryUploadTracked.init wizardModel) files
          { env := env1, completion := .ok r, chained := false } = env1 ∧
      env1.trace.count Event.notifyUploadStart =
        env.trace.count Event.notifyUploadStart + files.length ∧
      env1.trace.count Event.notifyUploadComplete =
        env.trace.count Event.notifyUploadComplete ∧
      env1.parents = pre ++ Component.formController c1 :: post ∧
      c1._uploadCounter = c._uploadCounter + files.length ∧
      (recordExists c.model c.handle = true → c1.published = true) := by
  obtain ⟨env1, c1, h1, hs1, _, hk1, _, hp1⟩ :=
    repeat_notifyUploadStart_controller files.length env pre post c hsplit hpre hw
  obtain ⟨env2, h2, hstart, hcomplete⟩ := repeat_notifyUploadStart_counts files.length env
  rw [h1] at h2
  injection h2 with h2
  subst h2
  have hguard : (r.truthy && r.hasThen) = false := by
    rcases hr with h | h <;> simp [h]
  have hlen : 0 < files.length := List.length_pos.mpr hfiles
  refine ⟨env1, c1, ?_, by simp [Field.settle], hstart, hcomplete, hs1, hk1, hp1 hlen⟩
  simp [Field._uploadFiles, wizard_field_flag, h1, hguard]

/-- Witness for C10: two files, the base upload returning `undefined`, below a
wizard controller whose record exists. -/
theorem uploadFiles_without_promise_never_completes_witness :
    ∃ env1 c1,
      Field._uploadFiles (FieldMany2ManyBinaryUploadTracked.init wizardModel) ["a", "b"]
          (.ok .nullish)
          { parents := [.widget false false,
              .formController (FormController.init wizardModel
                (some ⟨some [("h", ⟨none⟩)], [], 0⟩) "h")]
            trace := [] } =
        { env := env1, completion := .ok .nullish, chained := false } ∧
      Field.settle (FieldMany2ManyBinaryUploadTracked.init wizardModel) ["a", "b"]
          { env := env1, completion := .ok .nullish, chained := false } = env1 ∧
      env1.trace.count Event.notifyUploadStart =
        ([] : List Event).count Event.notifyUploadStart + ["a", "b"].length ∧
      env1.trace.count Event.notifyUploadComplete =
        ([] : List Event).count Event.notifyUploadComplete ∧
      env1.parents = [.widget false false] ++ Component.formController c1 :: [] ∧
      c1._uploadCounter =
        (FormController.init wizardModel (some ⟨some [("h", ⟨none⟩)], [], 0⟩)
          "h")._uploadCounter + ["a", "b"].length ∧
      (recordExists (some ⟨some [("h", ⟨none⟩)], [], 0⟩) "h" = true →
        c1.published = true) :=
  uploadFiles_without_promise_never_completes ["a", "b"] (by decide) .nullish
    (Or.inl rfl)
    { parents := [.widget false false,
        .formController (FormController.init wizardModel
          (some ⟨some [("h", ⟨none⟩)], [], 0⟩) "h")]
      trace := [] }
    [.widget false false] [] (FormController.init wizardModel
      (some ⟨some [("h", ⟨none⟩)], [], 0⟩) "h") rfl (by decide) (by decide)

end ExpenseUploadTracker
